import Mathlib

/-!
Verification of the Chip8 emulator core (`src/mods/chip8.rs`) against its
natural-language specification.

Shallow embedding conventions:
* `u8` / `u16` values are `Nat` with explicit `% 256` / `% 65536` where the
  Rust code wraps; bit operations on machine words are translated to their
  arithmetic equivalents (`x & 0xF` is `x % 16`, `x >> 8` is `x / 256`,
  `(hi << 8) | lo` with `lo < 256` is `hi * 256 + lo`, and so on).
* Fixed-size Rust arrays (`[u8; 4096]`, `[u8; 16]`, `[u8; 2048]`) are
  `List Nat` together with length hypotheses where a theorem needs them.
* A Rust panic (out-of-bounds index, `Option::unwrap` on `None`) aborts the
  process; it is modelled by `Except.error EmuErr.panic`.  The `io::Error`
  returned by the ROM loader when the ROM does not fit is
  `Except.error EmuErr.romTooLarge`.
* The `Vec<u16>` call stack (push/pop at the back) is a `List Nat` used as a
  stack with the top at the head.
* `rand::random::<u8>()` in opcode `CXNN` is nondeterministic; the random
  byte is passed to the cycle function as an explicit argument.
* File I/O in `load_rom`/`init` is outside the core (the spec says the core
  consumes a raw byte buffer), so the embedded loader takes the ROM bytes
  directly.
-/

set_option maxRecDepth 100000

namespace Chip8Emu

/-- Decidable equality of `Except` results, used to evaluate the embedded
code on concrete inputs. -/
instance {ε α : Type} [DecidableEq ε] [DecidableEq α] : DecidableEq (Except ε α) := fun a b =>
  match a, b with
  | .ok x, .ok y =>
      if h : x = y then .isTrue (by rw [h]) else .isFalse (fun hc => h (Except.ok.inj hc))
  | .error x, .error y =>
      if h : x = y then .isTrue (by rw [h]) else .isFalse (fun hc => h (Except.error.inj hc))
  | .ok _, .error _ => .isFalse (fun hc => Except.noConfusion hc)
  | .error _, .ok _ => .isFalse (fun hc => Except.noConfusion hc)

/-- Outcomes that abort the normal control flow of the Rust code: a process
panic, or the `io::Error` produced when the ROM is too large. -/
inductive EmuErr where
  | panic
  | romTooLarge
  deriving DecidableEq, Repr

/-- Machine state of the emulator, mirroring `struct Chip8`. -/
structure Chip8 where
  stack : List Nat
  PC : Nat
  V : List Nat
  memory : List Nat
  I : Nat
  delay_timer : Nat
  sound_timer : Nat
  keypad : List Nat
  display : List Nat
  draw_flag : Bool
  deriving DecidableEq, Repr

/-- `Chip8::new()`. -/
def Chip8.new : Chip8 where
  stack := []
  PC := 0x200
  V := List.replicate 16 0
  memory := List.replicate 4096 0
  I := 0
  delay_timer := 0
  sound_timer := 0
  keypad := List.replicate 16 0
  display := List.replicate (64 * 32) 0
  draw_flag := false

/-- A checked array read, `arr[i]`: panics when the index is out of bounds. -/
def memRead (l : List Nat) (i : Nat) : Except EmuErr Nat :=
  match l[i]? with
  | some b => .ok b
  | none => .error .panic

/-- A checked array write, `arr[i] = v`: panics when the index is out of
bounds. -/
def memWrite (l : List Nat) (i v : Nat) : Except EmuErr (List Nat) :=
  if i < l.length then .ok (l.set i v) else .error .panic

/-- Sequential byte stores `arr[base + k] = bytes[k]`, the loop shape of
`load_fontset` (`memory[FONTSET_START_ADDR + i] = byte`). -/
def storeBytes (base : Nat) : List Nat → List Nat → Except EmuErr (List Nat)
  | mem, [] => .ok mem
  | mem, b :: bs =>
      match memWrite mem base b with
      | .ok mem1 => storeBytes (base + 1) mem1 bs
      | .error e => .error e

/-- `Chip8::load_fontset`. -/
def Chip8.load_fontset (s : Chip8) (fontset : List Nat) : Except EmuErr Chip8 :=
  match storeBytes 0x50 s.memory fontset with
  | .ok mem1 => .ok { s with memory := mem1 }
  | .error e => .error e

/-- `Chip8::load_rom`, with the file contents `buf` passed directly (the file
read is host glue outside the core).  Fails before any write when the ROM
does not fit; the slice assignment
`memory[PROGRAM_START_ADDR..end].copy_from_slice(&buf)` becomes
take/append/drop. -/
def Chip8.load_rom (s : Chip8) (buf : List Nat) : Except EmuErr Chip8 :=
  if 0x200 + buf.length > s.memory.length then
    .error .romTooLarge
  else
    .ok { s with
          memory := s.memory.take 0x200 ++ buf ++ s.memory.drop (0x200 + buf.length) }

/-- `Chip8::init`: load the ROM, then the fontset. -/
def Chip8.init (s : Chip8) (buf fontset : List Nat) : Except EmuErr Chip8 :=
  match s.load_rom buf with
  | .ok s1 => s1.load_fontset fontset
  | .error e => .error e

/-- The `FX0A` key scan: first index `i` (scanning `0,1,...`) whose latch is
`1`, mirroring `for i in 0..16 { if keypad[i] == 1 { ...; break } }`. -/
def findKey : List Nat → Nat → Option Nat
  | [], _ => none
  | b :: rest, i => if b = 1 then some i else findKey rest (i + 1)

/-- Display index of sprite row `row`, column `col`, drawn at `(x, y)`:
`((y + row) % 32) * 64 + ((x + col) % 64)`. -/
def cellIdx (x y row col : Nat) : Nat :=
  ((y + row) % 32) * 64 + ((x + col) % 64)

/-- Bit `col` (from the most significant side) of a sprite byte:
`(sprite >> (7 - col)) & 1`. -/
def spriteBit (sprite col : Nat) : Nat :=
  sprite / 2 ^ (7 - col) % 2

/-- Inner column loop of the draw instruction, over the remaining column
indices; carries the display and the collision flag. -/
def drawCols (x y row sprite : Nat) : List Nat → List Nat × Nat → List Nat × Nat
  | [], dv => dv
  | col :: cols, (d, vf) =>
      if spriteBit sprite col = 1 then
        drawCols x y row sprite cols
          (d.set (cellIdx x y row col) (d.getD (cellIdx x y row col) 0 ^^^ 1),
           if d.getD (cellIdx x y row col) 0 = 1 then 1 else vf)
      else
        drawCols x y row sprite cols (d, vf)

/-- Outer row loop of the draw instruction: fetch the sprite byte
`memory[I + row]` (panicking out of bounds) and run the column loop. -/
def drawRows (mem : List Nat) (i x y : Nat) :
    List Nat → List Nat × Nat → Except EmuErr (List Nat × Nat)
  | [], dv => .ok dv
  | row :: rows, dv =>
      match mem[i + row]? with
      | some sprite => drawRows mem i x y rows (drawCols x y row sprite (List.range 8) dv)
      | none => .error .panic

/-- The `FX55` loop: `memory[I + i] = V[i]` for the listed indices. -/
def dumpRegs (V : List Nat) (base : Nat) : List Nat → List Nat → Except EmuErr (List Nat)
  | [], mem => .ok mem
  | i :: is, mem =>
      match memWrite mem (base + i) (V.getD i 0) with
      | .ok mem1 => dumpRegs V base is mem1
      | .error e => .error e

/-- The `FX65` loop: `V[i] = memory[I + i]` for the listed indices. -/
def loadRegs (mem : List Nat) (base : Nat) : List Nat → List Nat → Except EmuErr (List Nat)
  | [], V => .ok V
  | i :: is, V =>
      match mem[base + i]? with
      | some b => loadRegs mem base is (V.set i b)
      | none => .error .panic

/-- Decode and execute one opcode: the body of `emulate_cycle` after the
fetch.  The nested `match` on masked opcode bits becomes a chain of
equality tests on the corresponding nibble/byte fields; every
`eprintln!`-only arm (unknown opcode) returns the state unchanged. -/
def execOp (randByte : Nat) (s : Chip8) (opcode : Nat) : Except EmuErr Chip8 :=
  let X := opcode / 256 % 16
  let Y := opcode / 16 % 16
  let NN := opcode % 256
  let NNN := opcode % 4096
  let fam := opcode / 4096
  if fam = 0 then
    if NN = 0xE0 then
      .ok { s with display := List.replicate (64 * 32) 0, PC := s.PC + 2 }
    else if NN = 0xEE then
      match s.stack with
      | [] => .error .panic
      | a :: rest => .ok { s with stack := rest, PC := a + 2 }
    else
      .ok s
  else if fam = 1 then
    .ok { s with PC := NNN }
  else if fam = 2 then
    .ok { s with stack := s.PC :: s.stack, PC := NNN }
  else if fam = 3 then
    if s.V.getD X 0 = NN then .ok { s with PC := s.PC + 4 }
    else .ok { s with PC := s.PC + 2 }
  else if fam = 4 then
    if s.V.getD X 0 ≠ NN then .ok { s with PC := s.PC + 4 }
    else .ok { s with PC := s.PC + 2 }
  else if fam = 5 then
    if s.V.getD X 0 = s.V.getD Y 0 then .ok { s with PC := s.PC + 4 }
    else .ok { s with PC := s.PC + 2 }
  else if fam = 6 then
    .ok { s with V := s.V.set X NN, PC := s.PC + 2 }
  else if fam = 7 then
    .ok { s with V := s.V.set X ((s.V.getD X 0 + NN) % 256), PC := s.PC + 2 }
  else if fam = 8 then
    let sub := opcode % 16
    if sub = 0 then
      .ok { s with V := s.V.set X (s.V.getD Y 0), PC := s.PC + 2 }
    else if sub = 1 then
      .ok { s with V := s.V.set X (s.V.getD X 0 ||| s.V.getD Y 0), PC := s.PC + 2 }
    else if sub = 2 then
      .ok { s with V := s.V.set X (s.V.getD X 0 &&& s.V.getD Y 0), PC := s.PC + 2 }
    else if sub = 3 then
      .ok { s with V := s.V.set X (s.V.getD X 0 ^^^ s.V.getD Y 0), PC := s.PC + 2 }
    else if sub = 4 then
      let sum := (s.V.getD X 0 + s.V.getD Y 0) % 256
      let carry := if 256 ≤ s.V.getD X 0 + s.V.getD Y 0 then 1 else 0
      .ok { s with V := (s.V.set 15 carry).set X sum, PC := s.PC + 2 }
    else if sub = 5 then
      let diff := (s.V.getD X 0 + 256 - s.V.getD Y 0) % 256
      let flag := if s.V.getD X 0 < s.V.getD Y 0 then 0 else 1
      .ok { s with V := (s.V.set 15 flag).set X diff, PC := s.PC + 2 }
    else if sub = 6 then
      let V1 := s.V.set 15 (s.V.getD X 0 % 2)
      .ok { s with V := V1.set X (V1.getD X 0 / 2), PC := s.PC + 2 }
    else if sub = 7 then
      let diff := (s.V.getD Y 0 + 256 - s.V.getD X 0) % 256
      let flag := if s.V.getD Y 0 < s.V.getD X 0 then 0 else 1
      .ok { s with V := (s.V.set 15 flag).set X diff, PC := s.PC + 2 }
    else if sub = 14 then
      let V1 := s.V.set 15 (s.V.getD X 0 / 128 % 2)
      .ok { s with V := V1.set X (V1.getD X 0 * 2 % 256), PC := s.PC + 2 }
    else
      .ok s
  else if fam = 9 then
    if s.V.getD X 0 ≠ s.V.getD Y 0 then .ok { s with PC := s.PC + 4 }
    else .ok { s with PC := s.PC + 2 }
  else if fam = 10 then
    .ok { s with I := NNN, PC := s.PC + 2 }
  else if fam = 11 then
    .ok { s with PC := NNN + s.V.getD 0 0 }
  else if fam = 12 then
    .ok { s with V := s.V.set X (randByte &&& NN), PC := s.PC + 2 }
  else if fam = 13 then
    match drawRows s.memory s.I (s.V.getD X 0) (s.V.getD Y 0)
        (List.range (opcode % 16)) (s.display, 0) with
    | .ok (d, vf) =>
        .ok { s with display := d, V := s.V.set 15 vf, draw_flag := true, PC := s.PC + 2 }
    | .error e => .error e
  else if fam = 14 then
    if NN = 0x9E then
      match s.keypad[s.V.getD X 0]? with
      | some k => if k = 1 then .ok { s with PC := s.PC + 4 } else .ok { s with PC := s.PC + 2 }
      | none => .error .panic
    else if NN = 0xA1 then
      match s.keypad[s.V.getD X 0]? with
      | some k => if k = 0 then .ok { s with PC := s.PC + 4 } else .ok { s with PC := s.PC + 2 }
      | none => .error .panic
    else
      .ok s
  else
    if NN = 0x07 then
      .ok { s with V := s.V.set X s.delay_timer, PC := s.PC + 2 }
    else if NN = 0x0A then
      match findKey s.keypad 0 with
      | some i => .ok { s with V := s.V.set X i, PC := s.PC + 2 }
      | none => .ok s
    else if NN = 0x15 then
      .ok { s with delay_timer := s.V.getD X 0, PC := s.PC + 2 }
    else if NN = 0x18 then
      .ok { s with sound_timer := s.V.getD X 0, PC := s.PC + 2 }
    else if NN = 0x1E then
      .ok { s with I := (s.I + s.V.getD X 0) % 65536, PC := s.PC + 2 }
    else if NN = 0x29 then
      .ok { s with I := 0x50 + s.V.getD X 0 * 5, PC := s.PC + 2 }
    else if NN = 0x33 then
      let v := s.V.getD X 0
      match memWrite s.memory s.I (v / 100) with
      | .ok m1 =>
          match memWrite m1 (s.I + 1) (v % 100 / 10) with
          | .ok m2 =>
              match memWrite m2 (s.I + 2) (v % 10) with
              | .ok m3 => .ok { s with memory := m3, PC := s.PC + 2 }
              | .error e => .error e
          | .error e => .error e
      | .error e => .error e
    else if NN = 0x55 then
      match dumpRegs s.V s.I (List.range (X + 1)) s.memory with
      | .ok m1 => .ok { s with memory := m1, PC := s.PC + 2 }
      | .error e => .error e
    else if NN = 0x65 then
      match loadRegs s.memory s.I (List.range (X + 1)) s.V with
      | .ok v1 => .ok { s with V := v1, PC := s.PC + 2 }
      | .error e => .error e
    else
      .ok s

/-- `Chip8::emulate_cycle`: fetch the two opcode bytes at `PC` and `PC + 1`
(panicking when out of bounds, as the unguarded Rust indexing does), then
decode and execute. -/
def emulate_cycle (randByte : Nat) (s : Chip8) : Except EmuErr Chip8 :=
  match memRead s.memory s.PC with
  | .error e => .error e
  | .ok hi =>
      match memRead s.memory (s.PC + 1) with
      | .error e => .error e
      | .ok lo => execOp randByte s (hi * 256 + lo)

/-- `Chip8::update_timers`. -/
def update_timers (s : Chip8) : Chip8 :=
  { s with
    delay_timer := if s.delay_timer > 0 then s.delay_timer - 1 else s.delay_timer
    sound_timer := if s.sound_timer > 0 then s.sound_timer - 1 else s.sound_timer }

/-! ### Concrete machine states used to exercise the failure paths -/

/-- A fresh machine whose ROM area still holds `0x00 0x00` at `PC = 0x200`:
the fetched opcode `0x0000` matches no decode rule. -/
def stallState : Chip8 := Chip8.new

/-- A machine about to execute `00EE` (return) with an empty call stack:
`memory[0x200] = 0x00`, `memory[0x201] = 0xEE`. -/
def underflowState : Chip8 :=
  { Chip8.new with memory := (List.replicate 4096 0).set 0x201 0xEE }

/-- A well-formed machine whose `PC` sits on the last memory byte, so the
fetch reads `memory[4095]` and `memory[4096]`. -/
def lastByteState : Chip8 := { Chip8.new with PC := 4095 }

/-- A used machine (`PC = 0x999`, away from the reset value) about to be
re-initialised. -/
def dirtyState : Chip8 := { Chip8.new with PC := 0x999 }

/-- A 4096-byte memory holding the two opcode bytes `hi lo` at `0x200`. -/
def romMem (hi lo : Nat) : List Nat :=
  ((List.replicate 4096 0).set 0x200 hi).set 0x201 lo

/-- Machine about to run `8FF4` (add `V[15] + V[15]` with carry, result into
`V[15]`), with `V[15] = 1`. -/
def addFlagState : Chip8 :=
  { Chip8.new with memory := romMem 0x8F 0xF4, V := (List.replicate 16 0).set 15 1 }

/-- Machine about to run `8014` (add `V[1]` into `V[0]` with carry), with
`V[0] = 200` and `V[1] = 100`. -/
def addWitState : Chip8 :=
  { Chip8.new with
    memory := romMem 0x80 0x14
    V := ((List.replicate 16 0).set 0 200).set 1 100 }

/-- Machine about to run `8FF6` (shift `V[15]` right), with `V[15] = 3`. -/
def shiftFlagState : Chip8 :=
  { Chip8.new with memory := romMem 0x8F 0xF6, V := (List.replicate 16 0).set 15 3 }

/-- Machine about to run `8016` (shift `V[0]` right), with `V[0] = 5`. -/
def shiftWitState : Chip8 :=
  { Chip8.new with memory := romMem 0x80 0x16, V := (List.replicate 16 0).set 0 5 }

/-- Machine about to run `F50A` (wait for key into `V[5]`) with key 3
pressed. -/
def keyWitState : Chip8 :=
  { Chip8.new with memory := romMem 0xF5 0x0A, keypad := (List.replicate 16 0).set 3 1 }

/-- Machine about to run `F150` dump: `F155` stores `V[0..=1]` at
`memory[I..=I+1]` with `I = 0x300`, `V[0] = 7`, `V[1] = 9`. -/
def dumpWitState : Chip8 :=
  { Chip8.new with
    memory := romMem 0xF1 0x55
    I := 0x300
    V := ((List.replicate 16 0).set 0 7).set 1 9 }

/-- A 4096-byte memory holding the draw opcode `D011` twice (at `0x200` and
`0x202`) and the one-row sprite byte `0x80` at `0x300`. -/
def drawMem : List Nat :=
  (((((List.replicate 4096 0).set 0x200 0xD0).set 0x201 0x11).set 0x202 0xD0).set
      0x203 0x11).set 0x300 0x80

/-- Machine that draws the single-pixel sprite at `(0, 0)` twice, onto a
display whose pixel `(0, 0)` is already lit. -/
def drawLitState : Chip8 :=
  { Chip8.new with
    memory := drawMem
    I := 0x300
    display := (List.replicate 2048 0).set 0 1 }

/-- Machine that draws the single-pixel sprite at `(0, 0)` twice, onto an
all-dark display. -/
def drawDarkState : Chip8 :=
  { Chip8.new with memory := drawMem, I := 0x300 }

/-! ### Analysis view of the draw loops

The nested draw loops are re-expressed over the list of display indices of
the sprite pixels that are set (the "active cells"), in execution order:
`toggles` is the display effect, `collide` the collision-flag effect. -/

/-- XOR-toggle the display at each listed index, in order. -/
def toggles : List Nat → List Nat → List Nat
  | [], d => d
  | j :: js, d => toggles js (d.set j (d.getD j 0 ^^^ 1))

/-- The collision flag after toggling each listed index, in order: it
becomes 1 when some index is read as 1 at its turn. -/
def collide : List Nat → List Nat → Nat → Nat
  | [], _, vf => vf
  | j :: js, d, vf =>
      collide js (d.set j (d.getD j 0 ^^^ 1)) (if d.getD j 0 = 1 then 1 else vf)

/-- Display indices of the set sprite bits of one row, over the listed
columns. -/
def colCells (x y row sprite : Nat) : List Nat → List Nat
  | [] => []
  | col :: cols =>
      if spriteBit sprite col = 1 then
        cellIdx x y row col :: colCells x y row sprite cols
      else
        colCells x y row sprite cols

/-- Display indices of all set sprite bits, over the listed rows. -/
def rowCells (mem : List Nat) (i x y : Nat) : List Nat → List Nat
  | [] => []
  | row :: rows =>
      colCells x y row (mem.getD (i + row) 0) (List.range 8) ++ rowCells mem i x y rows

/-! ### Small `List.getD` lemmas used throughout -/

theorem getD_set_self (l : List Nat) (i v : Nat) (h : i < l.length) :
    (l.set i v).getD i 0 = v := by
  rw [List.getD_eq_getElem?_getD, List.getElem?_set_self h]
  rfl

theorem getD_set_ne (l : List Nat) (i j v : Nat) (h : i ≠ j) :
    (l.set i v).getD j 0 = l.getD j 0 := by
  rw [List.getD_eq_getElem?_getD, List.getElem?_set_ne h, ← List.getD_eq_getElem?_getD]

theorem getD_append_left (l1 l2 : List Nat) (n : Nat) (h : n < l1.length) :
    (l1 ++ l2).getD n 0 = l1.getD n 0 := by
  rw [List.getD_eq_getElem?_getD, List.getElem?_append_left h, ← List.getD_eq_getElem?_getD]

theorem getD_append_right (l1 l2 : List Nat) (n : Nat) (h : l1.length ≤ n) :
    (l1 ++ l2).getD n 0 = l2.getD (n - l1.length) 0 := by
  rw [List.getD_eq_getElem?_getD, List.getElem?_append_right h, ← List.getD_eq_getElem?_getD]

theorem getD_take (l : List Nat) (n m : Nat) (h : m < n) :
    (l.take n).getD m 0 = l.getD m 0 := by
  rw [List.getD_eq_getElem?_getD, List.getElem?_take_of_lt h, ← List.getD_eq_getElem?_getD]

theorem getD_drop (l : List Nat) (i j : Nat) :
    (l.drop i).getD j 0 = l.getD (i + j) 0 := by
  rw [List.getD_eq_getElem?_getD, List.getElem?_drop, ← List.getD_eq_getElem?_getD]

theorem getD_replicate (a n m : Nat) :
    (List.replicate n a).getD m 0 = if m < n then a else 0 := by
  rw [List.getD_eq_getElem?_getD, List.getElem?_replicate]
  split <;> rfl

/-- Two lists of the same length with the same `getD` values are equal. -/
theorem ext_getD : ∀ (l1 l2 : List Nat), l1.length = l2.length →
    (∀ n, l1.getD n 0 = l2.getD n 0) → l1 = l2
  | [], [], _, _ => rfl
  | a :: t1, b :: t2, h, hp => by
      have hab : a = b := hp 0
      have ht : t1 = t2 := ext_getD t1 t2 (by simpa using h) (fun n => hp (n + 1))
      rw [hab, ht]
  | [], _ :: _, h, _ => by simp at h
  | _ :: _, [], h, _ => by simp at h

/-! ### Basic facts about the cycle function -/

/-- When both fetch reads succeed, a cycle is the decode/execute step on the
combined opcode. -/
theorem emulate_cycle_eq (r : Nat) (s : Chip8) (hi lo : Nat)
    (h1 : s.memory[s.PC]? = some hi) (h2 : s.memory[s.PC + 1]? = some lo) :
    emulate_cycle r s = execOp r s (hi * 256 + lo) := by
  simp [emulate_cycle, memRead, h1, h2]

/-- When the second fetch read is out of bounds, the cycle panics. -/
theorem emulate_cycle_fetch_panic (r : Nat) (s : Chip8) (hi : Nat)
    (h1 : s.memory[s.PC]? = some hi) (h2 : s.memory[s.PC + 1]? = none) :
    emulate_cycle r s = .error .panic := by
  simp [emulate_cycle, memRead, h1, h2]

/-! ### Dispatch lemmas: how `execOp` reduces on each opcode family.

These are proved once with a symbolic state and symbolic decode-field
hypotheses, so that later proofs never traverse the large `execOp` body with
concrete 4096-element lists plugged in. -/

/-- Opcode family 0 with a low byte matching neither `00E0` nor `00EE` is an
unknown opcode: the code logs and returns with the state untouched. -/
theorem execOp_unknown0 (r : Nat) (s : Chip8) (opcode : Nat)
    (hf : opcode / 4096 = 0) (h1 : opcode % 256 ≠ 0xE0) (h2 : opcode % 256 ≠ 0xEE) :
    execOp r s opcode = .ok s := by
  simp only [execOp]
  rw [hf]
  simp [h1, h2]

/-- Opcode `00EE` with an empty call stack: the `unwrap` panics. -/
theorem execOp_ret_underflow (r : Nat) (s : Chip8) (opcode : Nat)
    (hf : opcode / 4096 = 0) (hEE : opcode % 256 = 0xEE) (hstk : s.stack = []) :
    execOp r s opcode = .error .panic := by
  simp only [execOp]
  rw [hf, hEE, hstk]
  norm_num

/-- `8XY4` (add with carry): flag written first, then the precomputed sum. -/
theorem execOp_8XY4 (r : Nat) (s : Chip8) (opcode X Y : Nat)
    (hf : opcode / 4096 = 8) (hs : opcode % 16 = 4)
    (hX : opcode / 256 % 16 = X) (hY : opcode / 16 % 16 = Y) :
    execOp r s opcode = .ok { s with
      V := (s.V.set 15 (if 256 ≤ s.V.getD X 0 + s.V.getD Y 0 then 1 else 0)).set X
             ((s.V.getD X 0 + s.V.getD Y 0) % 256),
      PC := s.PC + 2 } := by
  simp only [execOp]
  rw [hf, hs, hX, hY]
  norm_num

/-- `8XY5` (sub with borrow): flag written first, then the precomputed
difference. -/
theorem execOp_8XY5 (r : Nat) (s : Chip8) (opcode X Y : Nat)
    (hf : opcode / 4096 = 8) (hs : opcode % 16 = 5)
    (hX : opcode / 256 % 16 = X) (hY : opcode / 16 % 16 = Y) :
    execOp r s opcode = .ok { s with
      V := (s.V.set 15 (if s.V.getD X 0 < s.V.getD Y 0 then 0 else 1)).set X
             ((s.V.getD X 0 + 256 - s.V.getD Y 0) % 256),
      PC := s.PC + 2 } := by
  simp only [execOp]
  rw [hf, hs, hX, hY]
  norm_num

/-- `8XY7` (reverse sub with borrow). -/
theorem execOp_8XY7 (r : Nat) (s : Chip8) (opcode X Y : Nat)
    (hf : opcode / 4096 = 8) (hs : opcode % 16 = 7)
    (hX : opcode / 256 % 16 = X) (hY : opcode / 16 % 16 = Y) :
    execOp r s opcode = .ok { s with
      V := (s.V.set 15 (if s.V.getD Y 0 < s.V.getD X 0 then 0 else 1)).set X
             ((s.V.getD Y 0 + 256 - s.V.getD X 0) % 256),
      PC := s.PC + 2 } := by
  simp only [execOp]
  rw [hf, hs, hX, hY]
  norm_num

/-- `8XY6` (shift right): the flag write happens before the shift, and the
shifted value is read back from the updated register file. -/
theorem execOp_8XY6 (r : Nat) (s : Chip8) (opcode X : Nat)
    (hf : opcode / 4096 = 8) (hs : opcode % 16 = 6)
    (hX : opcode / 256 % 16 = X) :
    execOp r s opcode = .ok { s with
      V := (s.V.set 15 (s.V.getD X 0 % 2)).set X
             ((s.V.set 15 (s.V.getD X 0 % 2)).getD X 0 / 2),
      PC := s.PC + 2 } := by
  simp only [execOp]
  rw [hf, hs, hX]
  norm_num

/-- `8XYE` (shift left): flag write first, then the wrapped doubled value
read back from the updated register file. -/
theorem execOp_8XYE (r : Nat) (s : Chip8) (opcode X : Nat)
    (hf : opcode / 4096 = 8) (hs : opcode % 16 = 14)
    (hX : opcode / 256 % 16 = X) :
    execOp r s opcode = .ok { s with
      V := (s.V.set 15 (s.V.getD X 0 / 128 % 2)).set X
             ((s.V.set 15 (s.V.getD X 0 / 128 % 2)).getD X 0 * 2 % 256),
      PC := s.PC + 2 } := by
  simp only [execOp]
  rw [hf, hs, hX]
  norm_num

/-- `DXYN` (draw). -/
theorem execOp_draw (r : Nat) (s : Chip8) (opcode X Y N : Nat)
    (hf : opcode / 4096 = 13) (hN : opcode % 16 = N)
    (hX : opcode / 256 % 16 = X) (hY : opcode / 16 % 16 = Y) :
    execOp r s opcode =
      match drawRows s.memory s.I (s.V.getD X 0) (s.V.getD Y 0)
          (List.range N) (s.display, 0) with
      | .ok (d, vf) =>
          .ok { s with display := d, V := s.V.set 15 vf, draw_flag := true, PC := s.PC + 2 }
      | .error e => .error e := by
  simp only [execOp]
  rw [hf, hN, hX, hY]
  norm_num

/-- `FX0A` with no key pressed: the state is returned unchanged. -/
theorem execOp_FX0A_none (r : Nat) (s : Chip8) (opcode X : Nat)
    (hf : opcode / 4096 = 15) (hNN : opcode % 256 = 0x0A)
    (hX : opcode / 256 % 16 = X) (hkey : findKey s.keypad 0 = none) :
    execOp r s opcode = .ok s := by
  simp only [execOp]
  rw [hf, hNN, hX, hkey]
  norm_num

/-- `FX0A` with a key pressed: the scanned index is stored and `PC`
advances. -/
theorem execOp_FX0A_some (r : Nat) (s : Chip8) (opcode X i : Nat)
    (hf : opcode / 4096 = 15) (hNN : opcode % 256 = 0x0A)
    (hX : opcode / 256 % 16 = X) (hkey : findKey s.keypad 0 = some i) :
    execOp r s opcode = .ok { s with V := s.V.set X i, PC := s.PC + 2 } := by
  simp only [execOp]
  rw [hf, hNN, hX, hkey]
  norm_num

/-- `FX55` (register dump). -/
theorem execOp_FX55 (r : Nat) (s : Chip8) (opcode X : Nat)
    (hf : opcode / 4096 = 15) (hNN : opcode % 256 = 0x55)
    (hX : opcode / 256 % 16 = X) :
    execOp r s opcode =
      match dumpRegs s.V s.I (List.range (X + 1)) s.memory with
      | .ok m1 => .ok { s with memory := m1, PC := s.PC + 2 }
      | .error e => .error e := by
  simp only [execOp]
  rw [hf, hNN, hX]
  norm_num

/-- `FX65` (register load). -/
theorem execOp_FX65 (r : Nat) (s : Chip8) (opcode X : Nat)
    (hf : opcode / 4096 = 15) (hNN : opcode % 256 = 0x65)
    (hX : opcode / 256 % 16 = X) :
    execOp r s opcode =
      match loadRegs s.memory s.I (List.range (X + 1)) s.V with
      | .ok v1 => .ok { s with V := v1, PC := s.PC + 2 }
      | .error e => .error e := by
  simp only [execOp]
  rw [hf, hNN, hX]
  norm_num

/-- C1: the claim says an unknown opcode advances `PC` by 2; the code only
logs and leaves the whole state (in particular `PC`) unchanged, so the
machine stalls re-fetching the same opcode.  Executed on the concrete
unknown opcode `0x0000`: the cycle returns the state unchanged and `PC`
stays `0x200` instead of becoming `0x202`. -/
theorem c1_unknown_opcode_stalls :
    emulate_cycle 0 stallState = .ok stallState ∧
      stallState.PC = 0x200 ∧ (0x200 : Nat) ≠ 0x200 + 2 := by
  have h1 : stallState.memory[stallState.PC]? = some 0 := by
    norm_num [stallState, Chip8.new, List.getElem?_replicate]
  have h2 : stallState.memory[stallState.PC + 1]? = some 0 := by
    norm_num [stallState, Chip8.new, List.getElem?_replicate]
  rw [emulate_cycle_eq 0 stallState 0 0 h1 h2]
  exact ⟨execOp_unknown0 0 stallState _ (by norm_num) (by norm_num) (by norm_num),
    rfl, by norm_num⟩

/-- C2: the claim says a return with an empty call stack is handled by a
defined failure policy rather than crashing; the code executes
`self.stack.pop().unwrap()`, and `unwrap` on `None` panics, aborting the
host process (modelled by `EmuErr.panic`). -/
theorem c2_empty_stack_return_panics :
    emulate_cycle 0 underflowState = .error .panic ∧ underflowState.stack = [] := by
  have h1 : underflowState.memory[underflowState.PC]? = some 0 := by
    rw [show underflowState.memory = (List.replicate 4096 0).set 0x201 0xEE from rfl,
        show underflowState.PC = 0x200 from rfl,
        List.getElem?_set_ne (by norm_num)]
    norm_num [List.getElem?_replicate]
  have h2 : underflowState.memory[underflowState.PC + 1]? = some 0xEE := by
    rw [show underflowState.memory = (List.replicate 4096 0).set 0x201 0xEE from rfl,
        show underflowState.PC + 1 = 0x201 from rfl, List.getElem?_set_self (by norm_num)]
  rw [emulate_cycle_eq 0 underflowState 0 0xEE h1 h2]
  exact ⟨execOp_ret_underflow 0 underflowState _ (by norm_num) (by norm_num) rfl, rfl⟩

/-- C3: the claim says the two-byte fetch is guarded against `PC` at the
memory boundary; the code indexes `memory[PC]` and `memory[PC + 1]`
unguarded, so with the well-formed 4096-byte memory and `PC = 4095` the
read of `memory[4096]` is out of bounds and panics. -/
theorem c3_fetch_at_boundary_panics :
    emulate_cycle 0 lastByteState = .error .panic ∧
      lastByteState.memory.length = 4096 ∧ lastByteState.PC = 4095 := by
  have h1 : lastByteState.memory[lastByteState.PC]? = some 0 := by
    norm_num [lastByteState, Chip8.new, List.getElem?_replicate]
  have h2 : lastByteState.memory[lastByteState.PC + 1]? = none := by
    norm_num [lastByteState, Chip8.new, List.getElem?_replicate]
  refine ⟨emulate_cycle_fetch_panic 0 lastByteState 0 h1 h2, ?_, rfl⟩
  rw [show lastByteState.memory = List.replicate 4096 0 from rfl, List.length_replicate]

/-- C9: ROM loading fails with the ROM-too-large error exactly when
`0x200 + len > 4096`; the failure happens before any write (the embedded
loader, like the Rust early return, produces no modified state), and on
success the ROM bytes occupy `memory[0x200 .. 0x200+len)` while everything
else — remaining memory and all other fields — is untouched. -/
theorem c9_load_rom_spec (s : Chip8) (buf : List Nat) (hmem : s.memory.length = 4096) :
    (4096 < 0x200 + buf.length → s.load_rom buf = .error .romTooLarge) ∧
    (0x200 + buf.length ≤ 4096 →
      ∃ s1, s.load_rom buf = .ok s1 ∧
        (∀ k, k < buf.length → s1.memory.getD (0x200 + k) 0 = buf.getD k 0) ∧
        (∀ a, a < 0x200 ∨ 0x200 + buf.length ≤ a → s1.memory.getD a 0 = s.memory.getD a 0) ∧
        s1.memory.length = 4096 ∧ s1.PC = s.PC ∧ s1.V = s.V ∧ s1.stack = s.stack ∧
        s1.I = s.I ∧ s1.delay_timer = s.delay_timer ∧ s1.sound_timer = s.sound_timer ∧
        s1.keypad = s.keypad ∧ s1.display = s.display ∧ s1.draw_flag = s.draw_flag) := by
  have htake : (s.memory.take 0x200).length = 0x200 := by
    rw [List.length_take]
    omega
  constructor
  · intro h
    unfold Chip8.load_rom
    rw [if_pos (by omega)]
  · intro h
    refine ⟨{ s with memory := s.memory.take 0x200 ++ buf ++ s.memory.drop (0x200 + buf.length) },
      ?_, ?_, ?_, ?_, rfl, rfl, rfl, rfl, rfl, rfl, rfl, rfl, rfl⟩
    · unfold Chip8.load_rom
      rw [if_neg (by omega)]
    · intro k hk
      show ((s.memory.take 0x200 ++ buf) ++ s.memory.drop (0x200 + buf.length)).getD (0x200 + k) 0 = _
      rw [getD_append_left _ _ _ (by rw [List.length_append, htake]; omega),
          getD_append_right _ _ _ (by rw [htake]; omega), htake,
          show 0x200 + k - 0x200 = k from by omega]
    · intro a ha
      rcases ha with ha | ha
      · show ((s.memory.take 0x200 ++ buf) ++ s.memory.drop (0x200 + buf.length)).getD a 0 = _
        rw [getD_append_left _ _ _ (by rw [List.length_append, htake]; omega),
            getD_append_left _ _ _ (by rw [htake]; omega), getD_take _ _ _ ha]
      · show ((s.memory.take 0x200 ++ buf) ++ s.memory.drop (0x200 + buf.length)).getD a 0 = _
        rw [getD_append_right _ _ _ (by rw [List.length_append, htake]; omega),
            List.length_append, htake, getD_drop,
            show 0x200 + buf.length + (a - (0x200 + buf.length)) = a from by omega]
    · show ((s.memory.take 0x200 ++ buf) ++ s.memory.drop (0x200 + buf.length)).length = 4096
      rw [List.length_append, List.length_append, htake, List.length_drop, hmem]
      omega

/-- C9 witness: a 2-byte ROM loads into a fresh machine. -/
theorem c9_load_rom_spec_witness :
    (0x200 : Nat) + (2 : Nat) ≤ 4096 ∧
      ∃ s1, Chip8.new.load_rom [0x60, 0x05] = .ok s1 ∧
        s1.memory.getD 0x200 0 = 0x60 := by
  have hmem : Chip8.new.memory.length = 4096 := by
    rw [show Chip8.new.memory = List.replicate 4096 0 from rfl, List.length_replicate]
  refine ⟨by norm_num, ?_⟩
  obtain ⟨s1, hok, hrom, -⟩ := (c9_load_rom_spec Chip8.new [0x60, 0x05] hmem).2 (by norm_num)
  exact ⟨s1, hok, by simpa using hrom 0 (by norm_num)⟩

/-- C4: the claim says `init` itself resets `PC` and zeroes the registers,
timers, stack, display and keypad; in the code the reset lives in the
constructor `new()` while `init` only loads the ROM and the fontset.
Re-initialising a used machine with `PC = 0x999` succeeds and leaves
`PC = 0x999`, not `0x200`. -/
theorem c4_init_no_reset_counterexample :
    Except.map Chip8.PC (Chip8.init dirtyState [0x12] []) = .ok 0x999 ∧
      (0x999 : Nat) ≠ 0x200 := by
  have hlen : dirtyState.memory.length = 4096 := by
    rw [show dirtyState.memory = List.replicate 4096 0 from rfl, List.length_replicate]
  constructor
  · unfold Chip8.init Chip8.load_rom Chip8.load_fontset
    rw [if_neg (by rw [hlen]; norm_num)]
    rfl
  · norm_num

/-- C4 (amended): the constructor `new()` produces the reset state
(`PC = 0x200`, zeroed registers, timers, stack, display, keypad), and a
successful `init` changes only `memory` (ROM plus fontset): `PC`, registers,
timers, stack, display, keypad and the draw flag all keep their prior
values, so `init` performs no reset of its own. -/
theorem c4_init_loads_only_memory :
    (Chip8.new.PC = 0x200 ∧ Chip8.new.V = List.replicate 16 0 ∧
      Chip8.new.I = 0 ∧ Chip8.new.delay_timer = 0 ∧ Chip8.new.sound_timer = 0 ∧
      Chip8.new.stack = [] ∧ Chip8.new.keypad = List.replicate 16 0 ∧
      Chip8.new.display = List.replicate 2048 0) ∧
    (∀ (s : Chip8) (rom fontset : List Nat) (s1 : Chip8),
      Chip8.init s rom fontset = .ok s1 →
      s1.PC = s.PC ∧ s1.V = s.V ∧ s1.stack = s.stack ∧ s1.I = s.I ∧
      s1.delay_timer = s.delay_timer ∧ s1.sound_timer = s.sound_timer ∧
      s1.keypad = s.keypad ∧ s1.display = s.display ∧ s1.draw_flag = s.draw_flag) := by
  refine ⟨⟨rfl, rfl, rfl, rfl, rfl, rfl, rfl, rfl⟩, ?_⟩
  intro s rom fontset s1 h
  unfold Chip8.init at h
  by_cases hc : s.memory.length < 0x200 + rom.length
  · rw [show s.load_rom rom = .error .romTooLarge from by unfold Chip8.load_rom; rw [if_pos hc]] at h
    cases h
  · rw [show s.load_rom rom =
        .ok { s with memory := s.memory.take 0x200 ++ rom ++ s.memory.drop (0x200 + rom.length) }
        from by unfold Chip8.load_rom; rw [if_neg hc]] at h
    have h2 : Chip8.load_fontset
        { s with memory := s.memory.take 0x200 ++ rom ++ s.memory.drop (0x200 + rom.length) }
        fontset = .ok s1 := h
    unfold Chip8.load_fontset at h2
    rcases hst : storeBytes 0x50
        (s.memory.take 0x200 ++ rom ++ s.memory.drop (0x200 + rom.length)) fontset with e | m
    · rw [hst] at h2
      cases h2
    · rw [hst] at h2
      cases h2
      exact ⟨rfl, rfl, rfl, rfl, rfl, rfl, rfl, rfl, rfl⟩

/-- C4 amended witness: re-initialising a fresh machine with an empty ROM
and fontset succeeds, and the fields are preserved as the theorem states. -/
theorem c4_init_loads_only_memory_witness :
    Chip8.init Chip8.new [] [] = .ok Chip8.new ∧ Chip8.new.PC = Chip8.new.PC := by
  have hlen : Chip8.new.memory.length = 4096 := by
    rw [show Chip8.new.memory = List.replicate 4096 0 from rfl, List.length_replicate]
  have h : Chip8.init Chip8.new [] [] = .ok Chip8.new := by
    unfold Chip8.init Chip8.load_rom Chip8.load_fontset
    rw [if_neg (by rw [hlen]; norm_num)]
    show (match storeBytes 0x50
        ({ Chip8.new with memory := Chip8.new.memory.take 0x200 ++ [] ++ Chip8.new.memory.drop (0x200 + 0) }).memory
        [] with
      | .ok m => _
      | .error e => Except.error e) = _
    rw [show (Chip8.new.memory.take 0x200 ++ [] ++ Chip8.new.memory.drop (0x200 + 0)) =
          Chip8.new.memory from by rw [List.append_nil, Nat.add_zero, List.take_append_drop]]
    rfl
  exact ⟨h, (c4_init_loads_only_memory.2 Chip8.new [] [] Chip8.new h).1⟩

/-! ### Facts about the concrete memories -/

theorem romMem_length (hi lo : Nat) : (romMem hi lo).length = 4096 := by
  unfold romMem
  rw [List.length_set, List.length_set, List.length_replicate]

theorem romMem_hi (hi lo : Nat) : (romMem hi lo)[0x200]? = some hi := by
  unfold romMem
  rw [List.getElem?_set_ne (by norm_num),
      List.getElem?_set_self (by rw [List.length_replicate]; norm_num)]

theorem romMem_lo (hi lo : Nat) : (romMem hi lo)[0x201]? = some lo := by
  unfold romMem
  rw [List.getElem?_set_self (by rw [List.length_set, List.length_replicate]; norm_num)]

/-- C5 (as stated, refuted): with `X = Y = 0xF`, opcode `8FF4` adds
`V[15] + V[15] = 1 + 1 = 2` without overflow, so the claim requires the flag
`V[15] = 0`; but the result write lands on `V[15]` after the flag write and
leaves `V[15] = 2`. -/
theorem c5_flag_overwritten_counterexample :
    Except.map (fun t => t.V.getD 15 0) (emulate_cycle 0 addFlagState) = .ok 2 ∧
      ¬ 256 ≤ addFlagState.V.getD 15 0 + addFlagState.V.getD 15 0 ∧ (2 : Nat) ≠ 0 := by
  have h1 : addFlagState.memory[addFlagState.PC]? = some 0x8F := by
    rw [show addFlagState.memory = romMem 0x8F 0xF4 from rfl,
        show addFlagState.PC = 0x200 from rfl]
    exact romMem_hi _ _
  have h2 : addFlagState.memory[addFlagState.PC + 1]? = some 0xF4 := by
    rw [show addFlagState.memory = romMem 0x8F 0xF4 from rfl,
        show addFlagState.PC + 1 = 0x201 from rfl]
    exact romMem_lo _ _
  rw [emulate_cycle_eq 0 addFlagState 0x8F 0xF4 h1 h2,
      execOp_8XY4 0 addFlagState _ 15 15 (by norm_num) (by norm_num) (by norm_num) (by norm_num)]
  refine ⟨by decide, by decide, by norm_num⟩

/-- C5 (amended): for the add-with-carry (`8XY4`), sub-with-borrow (`8XY5`)
and reverse-sub-with-borrow (`8XY7`) opcodes, the result register receives
the modulo-256 wrapped result computed from the pre-instruction register
values; the flag `V[15]` equals the documented carry/no-borrow condition
whenever `X ≠ 0xF` (for `X = 0xF` the result write overwrites the flag). -/
theorem c5_arith_carry_borrow (r : Nat) (s : Chip8) (X Y : Nat)
    (hX : X < 16) (hY : Y < 16) (hVlen : s.V.length = 16)
    (_hbytes : ∀ b ∈ s.V, b < 256) :
    (s.memory[s.PC]? = some (0x80 + X) → s.memory[s.PC + 1]? = some (16 * Y + 4) →
      ∃ s1, emulate_cycle r s = .ok s1 ∧
        s1.V.getD X 0 = (s.V.getD X 0 + s.V.getD Y 0) % 256 ∧
        (X ≠ 15 →
          s1.V.getD 15 0 = if 256 ≤ s.V.getD X 0 + s.V.getD Y 0 then 1 else 0)) ∧
    (s.memory[s.PC]? = some (0x80 + X) → s.memory[s.PC + 1]? = some (16 * Y + 5) →
      ∃ s1, emulate_cycle r s = .ok s1 ∧
        s1.V.getD X 0 = (s.V.getD X 0 + 256 - s.V.getD Y 0) % 256 ∧
        (X ≠ 15 →
          s1.V.getD 15 0 = if s.V.getD X 0 < s.V.getD Y 0 then 0 else 1)) ∧
    (s.memory[s.PC]? = some (0x80 + X) → s.memory[s.PC + 1]? = some (16 * Y + 7) →
      ∃ s1, emulate_cycle r s = .ok s1 ∧
        s1.V.getD X 0 = (s.V.getD Y 0 + 256 - s.V.getD X 0) % 256 ∧
        (X ≠ 15 →
          s1.V.getD 15 0 = if s.V.getD Y 0 < s.V.getD X 0 then 0 else 1)) := by
  refine ⟨?_, ?_, ?_⟩
  · intro h1 h2
    rw [emulate_cycle_eq r s _ _ h1 h2,
        execOp_8XY4 r s _ X Y (by omega) (by omega) (by omega) (by omega)]
    refine ⟨_, rfl, getD_set_self _ X _ (by rw [List.length_set]; omega), ?_⟩
    intro h15
    rw [getD_set_ne _ X 15 _ h15, getD_set_self _ 15 _ (by omega)]
  · intro h1 h2
    rw [emulate_cycle_eq r s _ _ h1 h2,
        execOp_8XY5 r s _ X Y (by omega) (by omega) (by omega) (by omega)]
    refine ⟨_, rfl, getD_set_self _ X _ (by rw [List.length_set]; omega), ?_⟩
    intro h15
    rw [getD_set_ne _ X 15 _ h15, getD_set_self _ 15 _ (by omega)]
  · intro h1 h2
    rw [emulate_cycle_eq r s _ _ h1 h2,
        execOp_8XY7 r s _ X Y (by omega) (by omega) (by omega) (by omega)]
    refine ⟨_, rfl, getD_set_self _ X _ (by rw [List.length_set]; omega), ?_⟩
    intro h15
    rw [getD_set_ne _ X 15 _ h15, getD_set_self _ 15 _ (by omega)]

/-- C5 amended witness: `8014` with `V[0] = 200`, `V[1] = 100` leaves
`V[0] = 44` (300 wrapped) and carry `V[15] = 1`. -/
theorem c5_arith_carry_borrow_witness :
    ∃ s1, emulate_cycle 0 addWitState = .ok s1 ∧
      s1.V.getD 0 0 = 44 ∧ s1.V.getD 15 0 = 1 := by
  have h1 : addWitState.memory[addWitState.PC]? = some (0x80 + 0) := by
    rw [show addWitState.memory = romMem 0x80 0x14 from rfl,
        show addWitState.PC = 0x200 from rfl]
    simpa using romMem_hi 0x80 0x14
  have h2 : addWitState.memory[addWitState.PC + 1]? = some (16 * 1 + 4) := by
    rw [show addWitState.memory = romMem 0x80 0x14 from rfl,
        show addWitState.PC + 1 = 0x201 from rfl]
    simpa using romMem_lo 0x80 0x14
  obtain ⟨s1, hok, hres, hflag⟩ :=
    (c5_arith_carry_borrow 0 addWitState 0 1 (by norm_num) (by norm_num)
      (by decide) (by decide)).1 h1 h2
  exact ⟨s1, hok, by rw [hres]; decide, by rw [hflag (by norm_num)]; decide⟩

/-- C6 (as stated, refuted): with `X = 0xF`, opcode `8FF6` first stores the
shifted-out bit in `V[15]` and then shifts `V[15]` itself, so with
`V[15] = 3` the shifted-out bit is `1` but the final `V[15]` is `0`. -/
theorem c6_flag_overwritten_counterexample :
    Except.map (fun t => t.V.getD 15 0) (emulate_cycle 0 shiftFlagState) = .ok 0 ∧
      shiftFlagState.V.getD 15 0 % 2 = 1 ∧ (0 : Nat) ≠ 1 := by
  have h1 : shiftFlagState.memory[shiftFlagState.PC]? = some 0x8F := by
    rw [show shiftFlagState.memory = romMem 0x8F 0xF6 from rfl,
        show shiftFlagState.PC = 0x200 from rfl]
    exact romMem_hi _ _
  have h2 : shiftFlagState.memory[shiftFlagState.PC + 1]? = some 0xF6 := by
    rw [show shiftFlagState.memory = romMem 0x8F 0xF6 from rfl,
        show shiftFlagState.PC + 1 = 0x201 from rfl]
    exact romMem_lo _ _
  rw [emulate_cycle_eq 0 shiftFlagState 0x8F 0xF6 h1 h2,
      execOp_8XY6 0 shiftFlagState _ 15 (by norm_num) (by norm_num) (by norm_num)]
  refine ⟨by decide, by decide, by norm_num⟩

/-- C6 (amended): for the shift opcodes `8XY6` (right) and `8XYE` (left)
with `X ≠ 0xF`, the flag `V[15]` equals the bit shifted out of the
pre-instruction `V[X]`, and `V[X]` receives the shifted value (wrapped, no
sign extension).  For `X = 0xF` the flag write and the shift both target
`V[15]`, so the stored bit is itself shifted away. -/
theorem c6_shift_flag_bit (r : Nat) (s : Chip8) (X Y : Nat)
    (hX : X < 16) (hY : Y < 16) (hX15 : X ≠ 15) (hVlen : s.V.length = 16)
    (_hbytes : ∀ b ∈ s.V, b < 256) :
    (s.memory[s.PC]? = some (0x80 + X) → s.memory[s.PC + 1]? = some (16 * Y + 6) →
      ∃ s1, emulate_cycle r s = .ok s1 ∧
        s1.V.getD 15 0 = s.V.getD X 0 % 2 ∧
        s1.V.getD X 0 = s.V.getD X 0 / 2) ∧
    (s.memory[s.PC]? = some (0x80 + X) → s.memory[s.PC + 1]? = some (16 * Y + 14) →
      ∃ s1, emulate_cycle r s = .ok s1 ∧
        s1.V.getD 15 0 = s.V.getD X 0 / 128 % 2 ∧
        s1.V.getD X 0 = s.V.getD X 0 * 2 % 256) := by
  constructor
  · intro h1 h2
    rw [emulate_cycle_eq r s _ _ h1 h2,
        execOp_8XY6 r s _ X (by omega) (by omega) (by omega)]
    refine ⟨_, rfl, ?_, ?_⟩
    · rw [getD_set_ne _ X 15 _ hX15, getD_set_self _ 15 _ (by omega)]
    · rw [getD_set_self _ X _ (by rw [List.length_set]; omega),
          getD_set_ne _ 15 X _ (Ne.symm hX15)]
  · intro h1 h2
    rw [emulate_cycle_eq r s _ _ h1 h2,
        execOp_8XYE r s _ X (by omega) (by omega) (by omega)]
    refine ⟨_, rfl, ?_, ?_⟩
    · rw [getD_set_ne _ X 15 _ hX15, getD_set_self _ 15 _ (by omega)]
    · rw [getD_set_self _ X _ (by rw [List.length_set]; omega),
          getD_set_ne _ 15 X _ (Ne.symm hX15)]

/-- C6 amended witness: `8016` with `V[0] = 5` leaves the shifted-out bit
`V[15] = 1` and the shifted value `V[0] = 2`. -/
theorem c6_shift_flag_bit_witness :
    ∃ s1, emulate_cycle 0 shiftWitState = .ok s1 ∧
      s1.V.getD 15 0 = 1 ∧ s1.V.getD 0 0 = 2 := by
  have h1 : shiftWitState.memory[shiftWitState.PC]? = some (0x80 + 0) := by
    rw [show shiftWitState.memory = romMem 0x80 0x16 from rfl,
        show shiftWitState.PC = 0x200 from rfl]
    simpa using romMem_hi 0x80 0x16
  have h2 : shiftWitState.memory[shiftWitState.PC + 1]? = some (16 * 1 + 6) := by
    rw [show shiftWitState.memory = romMem 0x80 0x16 from rfl,
        show shiftWitState.PC + 1 = 0x201 from rfl]
    simpa using romMem_lo 0x80 0x16
  obtain ⟨s1, hok, hflag, hres⟩ :=
    (c6_shift_flag_bit 0 shiftWitState 0 1 (by norm_num) (by norm_num) (by norm_num)
      (by decide) (by decide)).1 h1 h2
  exact ⟨s1, hok, by rw [hflag]; decide, by rw [hres]; decide⟩

/-! ### The `FX0A` key scan -/

/-- With no latch equal to 1, the scan finds nothing. -/
theorem findKey_eq_none : ∀ (l : List Nat) (i : Nat), (∀ b ∈ l, b ≠ 1) →
    findKey l i = none
  | [], _, _ => rfl
  | b :: t, i, h => by
      have hb : b ≠ 1 := h b (List.mem_cons_self b t)
      simp only [findKey, if_neg hb]
      exact findKey_eq_none t (i + 1) (fun x hx => h x (List.mem_cons_of_mem _ hx))

/-- The scan returns the first index whose latch is 1. -/
theorem findKey_eq_some : ∀ (l : List Nat) (i k : Nat), k < l.length →
    l.getD k 0 = 1 → (∀ j, j < k → l.getD j 0 ≠ 1) →
    findKey l i = some (i + k)
  | [], _, k, hk, _, _ => absurd hk (by simp)
  | b :: t, i, 0, _, hone, _ => by
      have hb : b = 1 := hone
      simp only [findKey, if_pos hb, Nat.add_zero]
  | b :: t, i, k + 1, hk, hone, hmin => by
      have hb : b ≠ 1 := hmin 0 (Nat.succ_pos k)
      simp only [findKey, if_neg hb]
      rw [findKey_eq_some t (i + 1) k (by simpa using hk) hone
            (fun j hj => hmin (j + 1) (by omega)),
          show i + 1 + k = i + (k + 1) from by omega]

/-- C8: the wait-for-key instruction `FX0A`.  With no keypad latch equal to
1 the cycle returns the state unchanged (in particular `PC`), so the
instruction re-executes next cycle; with a pressed key it stores the index
of the first pressed key (in fixed index order `0..15`) into `V[X]` and
advances `PC` by 2. -/
theorem c8_wait_for_key (r : Nat) (s : Chip8) (X : Nat) (hX : X < 16)
    (hVlen : s.V.length = 16) (hklen : s.keypad.length = 16)
    (hf1 : s.memory[s.PC]? = some (0xF0 + X))
    (hf2 : s.memory[s.PC + 1]? = some 0x0A) :
    ((∀ b ∈ s.keypad, b ≠ 1) → emulate_cycle r s = .ok s) ∧
    (∀ k, k < 16 → s.keypad.getD k 0 = 1 →
      (∀ j, j < k → s.keypad.getD j 0 ≠ 1) →
      ∃ s1, emulate_cycle r s = .ok s1 ∧
        s1.V.getD X 0 = k ∧ s1.PC = s.PC + 2) := by
  constructor
  · intro hnone
    rw [emulate_cycle_eq r s _ _ hf1 hf2,
        execOp_FX0A_none r s _ X (by omega) (by omega) (by omega)
          (findKey_eq_none s.keypad 0 hnone)]
  · intro k hk hone hmin
    rw [emulate_cycle_eq r s _ _ hf1 hf2,
        execOp_FX0A_some r s _ X k (by omega) (by omega) (by omega)
          (by simpa using findKey_eq_some s.keypad 0 k (by omega) hone hmin)]
    exact ⟨_, rfl, getD_set_self _ X _ (by omega), rfl⟩

/-- C8 witness: `F50A` with key 3 pressed stores 3 in `V[5]` and advances
`PC` to `0x202`. -/
theorem c8_wait_for_key_witness :
    ∃ s1, emulate_cycle 0 keyWitState = .ok s1 ∧
      s1.V.getD 5 0 = 3 ∧ s1.PC = 0x202 := by
  have h1 : keyWitState.memory[keyWitState.PC]? = some (0xF0 + 5) := by
    rw [show keyWitState.memory = romMem 0xF5 0x0A from rfl,
        show keyWitState.PC = 0x200 from rfl]
    simpa using romMem_hi 0xF5 0x0A
  have h2 : keyWitState.memory[keyWitState.PC + 1]? = some 0x0A := by
    rw [show keyWitState.memory = romMem 0xF5 0x0A from rfl,
        show keyWitState.PC + 1 = 0x201 from rfl]
    exact romMem_lo _ _
  obtain ⟨s1, hok, hreg, hpc⟩ :=
    (c8_wait_for_key 0 keyWitState 5 (by norm_num) (by decide) (by decide) h1 h2).2
      3 (by norm_num) (by decide) (by decide)
  exact ⟨s1, hok, hreg, hpc⟩

/-! ### The `FX55` / `FX65` register transfer loops -/

/-- An in-bounds optional read is the `getD` value. -/
theorem getElem?_eq_some_getD (l : List Nat) (i : Nat) (h : i < l.length) :
    l[i]? = some (l.getD i 0) := by
  rw [List.getD_eq_getElem?_getD, List.getElem?_eq_getElem h]
  rfl

/-- `dumpRegs` over distinct in-bounds indices: writes `V[i]` at `base + i`
and leaves everything else alone. -/
theorem dumpRegs_ok (V : List Nat) (base : Nat) : ∀ (is : List Nat) (mem : List Nat),
    (∀ i ∈ is, base + i < mem.length) → is.Nodup →
    ∃ m1, dumpRegs V base is mem = .ok m1 ∧ m1.length = mem.length ∧
      (∀ i ∈ is, m1.getD (base + i) 0 = V.getD i 0) ∧
      (∀ a, (∀ i ∈ is, a ≠ base + i) → m1.getD a 0 = mem.getD a 0)
  | [], mem, _, _ => ⟨mem, rfl, rfl, by simp, fun _ _ => rfl⟩
  | i :: t, mem, hb, hnd => by
      have hbi : base + i < mem.length := hb i (List.mem_cons_self i t)
      have step : dumpRegs V base (i :: t) mem =
          dumpRegs V base t (mem.set (base + i) (V.getD i 0)) := by
        simp only [dumpRegs, memWrite]
        rw [if_pos hbi]
      obtain ⟨m1, hok, hlen, hin, hout⟩ := dumpRegs_ok V base t
        (mem.set (base + i) (V.getD i 0))
        (fun j hj => by rw [List.length_set]; exact hb j (List.mem_cons_of_mem _ hj))
        (List.nodup_cons.mp hnd).2
      refine ⟨m1, step.trans hok, by rw [hlen, List.length_set], ?_, ?_⟩
      · intro j hj
        rcases List.mem_cons.mp hj with rfl | hjt
        · have hni : ∀ p ∈ t, base + j ≠ base + p := by
            intro p hp he
            have hjp : j = p := by omega
            exact (List.nodup_cons.mp hnd).1 (hjp ▸ hp)
          rw [hout (base + j) hni, getD_set_self _ _ _ hbi]
        · exact hin j hjt
      · intro a ha
        rw [hout a (fun p hp => ha p (List.mem_cons_of_mem _ hp)),
            getD_set_ne _ _ _ _ (fun e => ha i (List.mem_cons_self i t) e.symm)]

/-- `loadRegs` over distinct in-bounds indices: reads `memory[base + i]`
into `V[i]` and leaves the other registers alone. -/
theorem loadRegs_ok (mem : List Nat) (base : Nat) : ∀ (is : List Nat) (V : List Nat),
    (∀ i ∈ is, base + i < mem.length) → (∀ i ∈ is, i < V.length) → is.Nodup →
    ∃ v1, loadRegs mem base is V = .ok v1 ∧ v1.length = V.length ∧
      (∀ i ∈ is, v1.getD i 0 = mem.getD (base + i) 0) ∧
      (∀ j, (∀ i ∈ is, j ≠ i) → v1.getD j 0 = V.getD j 0)
  | [], V, _, _, _ => ⟨V, rfl, rfl, by simp, fun _ _ => rfl⟩
  | i :: t, V, hb, hv, hnd => by
      have hbi : base + i < mem.length := hb i (List.mem_cons_self i t)
      have hvi : i < V.length := hv i (List.mem_cons_self i t)
      have step : loadRegs mem base (i :: t) V =
          loadRegs mem base t (V.set i (mem.getD (base + i) 0)) := by
        simp only [loadRegs]
        rw [getElem?_eq_some_getD mem _ hbi]
      obtain ⟨v1, hok, hlen, hin, hout⟩ := loadRegs_ok mem base t
        (V.set i (mem.getD (base + i) 0))
        (fun j hj => hb j (List.mem_cons_of_mem _ hj))
        (fun j hj => by rw [List.length_set]; exact hv j (List.mem_cons_of_mem _ hj))
        (List.nodup_cons.mp hnd).2
      refine ⟨v1, step.trans hok, by rw [hlen, List.length_set], ?_, ?_⟩
      · intro j hj
        rcases List.mem_cons.mp hj with rfl | hjt
        · have hni : ∀ p ∈ t, j ≠ p := by
            intro p hp he
            exact (List.nodup_cons.mp hnd).1 (he ▸ hp)
          rw [hout j hni, getD_set_self _ _ _ hvi]
        · exact hin j hjt
      · intro a ha
        rw [hout a (fun p hp => ha p (List.mem_cons_of_mem _ hp)),
            getD_set_ne _ _ _ _ (fun e => ha i (List.mem_cons_self i t) e.symm)]

/-- C10: the register dump `FX55` and register load `FX65` leave the index
register `I` unchanged (the non-incrementing variant); `FX55` writes exactly
`V[0..=X]` to `memory[I..=I+X]` leaving the registers and all other memory
untouched, and `FX65` reads exactly `memory[I..=I+X]` into `V[0..=X]`
leaving memory and the higher registers untouched. -/
theorem c10_dump_load_keep_index (r : Nat) (s : Chip8) (X : Nat) (hX : X < 16)
    (hmem : s.memory.length = 4096) (hVlen : s.V.length = 16) (hI : s.I + X < 4096) :
    (s.memory[s.PC]? = some (0xF0 + X) → s.memory[s.PC + 1]? = some 0x55 →
      ∃ s1, emulate_cycle r s = .ok s1 ∧ s1.I = s.I ∧ s1.V = s.V ∧
        (∀ k, k ≤ X → s1.memory.getD (s.I + k) 0 = s.V.getD k 0) ∧
        (∀ a, a < s.I ∨ s.I + X < a → s1.memory.getD a 0 = s.memory.getD a 0) ∧
        s1.display = s.display ∧ s1.stack = s.stack ∧ s1.PC = s.PC + 2) ∧
    (s.memory[s.PC]? = some (0xF0 + X) → s.memory[s.PC + 1]? = some 0x65 →
      ∃ s1, emulate_cycle r s = .ok s1 ∧ s1.I = s.I ∧ s1.memory = s.memory ∧
        (∀ k, k ≤ X → s1.V.getD k 0 = s.memory.getD (s.I + k) 0) ∧
        (∀ k, X < k → s1.V.getD k 0 = s.V.getD k 0) ∧
        s1.display = s.display ∧ s1.stack = s.stack ∧ s1.PC = s.PC + 2) := by
  constructor
  · intro h1 h2
    rw [emulate_cycle_eq r s _ _ h1 h2,
        execOp_FX55 r s _ X (by omega) (by omega) (by omega)]
    obtain ⟨m1, hok, hlen, hin, hout⟩ := dumpRegs_ok s.V s.I (List.range (X + 1)) s.memory
      (fun i hi => by have := List.mem_range.mp hi; omega)
      (List.nodup_range _)
    rw [hok]
    refine ⟨_, rfl, rfl, rfl, ?_, ?_, rfl, rfl, rfl⟩
    · intro k hk
      exact hin k (List.mem_range.mpr (by omega))
    · intro a ha
      exact hout a (fun i hi => by have := List.mem_range.mp hi; omega)
  · intro h1 h2
    rw [emulate_cycle_eq r s _ _ h1 h2,
        execOp_FX65 r s _ X (by omega) (by omega) (by omega)]
    obtain ⟨v1, hok, hlen, hin, hout⟩ := loadRegs_ok s.memory s.I (List.range (X + 1)) s.V
      (fun i hi => by have := List.mem_range.mp hi; omega)
      (fun i hi => by have := List.mem_range.mp hi; omega)
      (List.nodup_range _)
    rw [hok]
    refine ⟨_, rfl, rfl, rfl, ?_, ?_, rfl, rfl, rfl⟩
    · intro k hk
      exact hin k (List.mem_range.mpr (by omega))
    · intro k hk
      exact hout k (fun i hi => by have := List.mem_range.mp hi; omega)

/-! ### Properties of the draw-loop analysis view -/

theorem toggles_append : ∀ (a b : List Nat) (d : List Nat),
    toggles (a ++ b) d = toggles b (toggles a d)
  | [], _, _ => rfl
  | j :: a, b, d => by
      simp only [List.cons_append, toggles]
      exact toggles_append a b _

theorem collide_append : ∀ (a b : List Nat) (d : List Nat) (vf : Nat),
    collide (a ++ b) d vf = collide b (toggles a d) (collide a d vf)
  | [], _, _, _ => rfl
  | j :: a, b, d, vf => by
      simp only [List.cons_append, toggles, collide]
      exact collide_append a b _ _

theorem toggles_length : ∀ (js : List Nat) (d : List Nat),
    (toggles js d).length = d.length
  | [], _ => rfl
  | j :: js, d => by
      simp only [toggles]
      rw [toggles_length js _, List.length_set]

theorem getD_toggles_not_mem : ∀ (js : List Nat) (d : List Nat) (p : Nat), p ∉ js →
    (toggles js d).getD p 0 = d.getD p 0
  | [], _, _, _ => rfl
  | j :: js, d, p, hp => by
      simp only [toggles]
      rw [getD_toggles_not_mem js _ p (fun h => hp (List.mem_cons_of_mem _ h)),
          getD_set_ne _ _ _ _ (fun e => hp (by rw [← e]; exact List.mem_cons_self j js))]

theorem getD_toggles_mem : ∀ (js : List Nat) (d : List Nat) (p : Nat), js.Nodup →
    p ∈ js → p < d.length → (toggles js d).getD p 0 = d.getD p 0 ^^^ 1
  | [], _, _, _, hp, _ => absurd hp (by simp)
  | j :: js, d, p, hnd, hp, hlen => by
      simp only [toggles]
      rcases List.mem_cons.mp hp with rfl | hpt
      · rw [getD_toggles_not_mem js _ p (List.nodup_cons.mp hnd).1,
            getD_set_self _ _ _ hlen]
      · rw [getD_toggles_mem js _ p (List.nodup_cons.mp hnd).2 hpt
              (by rw [List.length_set]; exact hlen),
            getD_set_ne _ _ _ _ (fun e => (List.nodup_cons.mp hnd).1 (by rw [e]; exact hpt))]

/-- Toggling a duplicate-free in-bounds index list twice restores the
display: the XOR self-inverse law. -/
theorem toggles_toggles (js : List Nat) (d : List Nat) (hnd : js.Nodup)
    (hb : ∀ j ∈ js, j < d.length) : toggles js (toggles js d) = d := by
  apply ext_getD
  · rw [toggles_length, toggles_length]
  · intro n
    by_cases hn : n ∈ js
    · rw [getD_toggles_mem js _ n hnd hn (by rw [toggles_length]; exact hb n hn),
          getD_toggles_mem js d n hnd hn (hb n hn), Nat.xor_assoc]
      simp
    · rw [getD_toggles_not_mem js _ n hn, getD_toggles_not_mem js d n hn]

/-- Over a duplicate-free index list every cell is read before any alias
could touch it, so the final collision flag tests the initial display. -/
theorem collide_eq : ∀ (js : List Nat) (d : List Nat) (vf : Nat), js.Nodup →
    collide js d vf = if ∃ j ∈ js, d.getD j 0 = 1 then 1 else vf
  | [], d, vf, _ => by simp [collide]
  | j :: js, d, vf, hnd => by
      simp only [collide]
      rw [collide_eq js _ _ (List.nodup_cons.mp hnd).2]
      have hset : ∀ p ∈ js, (d.set j (d.getD j 0 ^^^ 1)).getD p 0 = d.getD p 0 := by
        intro p hp
        exact getD_set_ne _ _ _ _ (fun e => (List.nodup_cons.mp hnd).1 (by rw [e]; exact hp))
      by_cases hex : ∃ p ∈ js, d.getD p 0 = 1
      · obtain ⟨p, hp, hp1⟩ := hex
        rw [if_pos ⟨p, hp, by rw [hset p hp]; exact hp1⟩,
            if_pos ⟨p, List.mem_cons_of_mem _ hp, hp1⟩]
      · have hex1 : ¬ ∃ p ∈ js, (d.set j (d.getD j 0 ^^^ 1)).getD p 0 = 1 := by
          intro hc
          obtain ⟨p, hp, hp1⟩ := hc
          exact hex ⟨p, hp, by rw [← hset p hp]; exact hp1⟩
        rw [if_neg hex1]
        by_cases hj : d.getD j 0 = 1
        · rw [if_pos hj, if_pos ⟨j, List.mem_cons_self j js, hj⟩]
        · rw [if_neg hj, if_neg ?_]
          intro hc
          obtain ⟨p, hp, hp1⟩ := hc
          rcases List.mem_cons.mp hp with rfl | hpt
          · exact hj hp1
          · exact hex ⟨p, hpt, hp1⟩

/-- The inner draw loop is the toggle/collide action of its active cells. -/
theorem drawCols_eq (x y row sprite : Nat) : ∀ (cols : List Nat) (d : List Nat) (vf : Nat),
    drawCols x y row sprite cols (d, vf) =
      (toggles (colCells x y row sprite cols) d,
       collide (colCells x y row sprite cols) d vf)
  | [], _, _ => rfl
  | col :: cols, d, vf => by
      by_cases h : spriteBit sprite col = 1
      · simp only [drawCols, colCells, if_pos h, toggles, collide]
        exact drawCols_eq x y row sprite cols _ _
      · simp only [drawCols, colCells, if_neg h]
        exact drawCols_eq x y row sprite cols d vf

/-- The outer draw loop succeeds when every sprite row is readable, and is
the toggle/collide action of all its active cells. -/
theorem drawRows_eq (mem : List Nat) (i x y : Nat) : ∀ (rows : List Nat) (d : List Nat) (vf : Nat),
    (∀ row ∈ rows, i + row < mem.length) →
    drawRows mem i x y rows (d, vf) =
      .ok (toggles (rowCells mem i x y rows) d,
           collide (rowCells mem i x y rows) d vf)
  | [], _, _, _ => rfl
  | row :: rows, d, vf, hb => by
      have hbi : i + row < mem.length := hb row (List.mem_cons_self row rows)
      simp only [drawRows, rowCells]
      rw [getElem?_eq_some_getD mem _ hbi]
      show drawRows mem i x y rows
          (drawCols x y row (mem.getD (i + row) 0) (List.range 8) (d, vf)) = _
      rw [drawCols_eq,
          drawRows_eq mem i x y rows _ _ (fun p hp => hb p (List.mem_cons_of_mem _ hp)),
          toggles_append, collide_append]

/-! ### Geometry of the sprite cells -/

theorem mem_colCells (x y row sprite : Nat) : ∀ (cols : List Nat) (p : Nat),
    p ∈ colCells x y row sprite cols ↔
      ∃ col, col ∈ cols ∧ spriteBit sprite col = 1 ∧ p = cellIdx x y row col
  | [], p => by simp [colCells]
  | col :: cols, p => by
      by_cases h : spriteBit sprite col = 1
      · simp only [colCells, if_pos h, List.mem_cons]
        rw [mem_colCells x y row sprite cols p]
        constructor
        · intro hp
          rcases hp with hp | ⟨c, hc, hb1, he⟩
          · exact ⟨col, Or.inl rfl, h, hp⟩
          · exact ⟨c, Or.inr hc, hb1, he⟩
        · intro hp
          obtain ⟨c, hc, hb1, he⟩ := hp
          rcases hc with rfl | hc
          · exact Or.inl he
          · exact Or.inr ⟨c, hc, hb1, he⟩
      · simp only [colCells, if_neg h]
        rw [mem_colCells x y row sprite cols p]
        constructor
        · intro hp
          obtain ⟨c, hc, hb1, he⟩ := hp
          exact ⟨c, List.mem_cons_of_mem _ hc, hb1, he⟩
        · intro hp
          obtain ⟨c, hc, hb1, he⟩ := hp
          rcases List.mem_cons.mp hc with rfl | hc
          · exact absurd hb1 h
          · exact ⟨c, hc, hb1, he⟩

theorem mem_rowCells (mem : List Nat) (i x y : Nat) : ∀ (rows : List Nat) (p : Nat),
    p ∈ rowCells mem i x y rows ↔
      ∃ row, row ∈ rows ∧ ∃ col, col < 8 ∧
        spriteBit (mem.getD (i + row) 0) col = 1 ∧ p = cellIdx x y row col
  | [], p => by simp [rowCells]
  | row :: rows, p => by
      simp only [rowCells, List.mem_append, List.mem_cons]
      rw [mem_colCells, mem_rowCells mem i x y rows p]
      constructor
      · intro hp
        rcases hp with ⟨c, hc, hb1, he⟩ | ⟨q, hq, c, hc, hb1, he⟩
        · exact ⟨row, Or.inl rfl, c, List.mem_range.mp hc, hb1, he⟩
        · exact ⟨q, Or.inr hq, c, hc, hb1, he⟩
      · intro hp
        obtain ⟨q, hq, c, hc, hb1, he⟩ := hp
        rcases hq with rfl | hq
        · exact Or.inl ⟨c, List.mem_range.mpr hc, hb1, he⟩
        · exact Or.inr ⟨q, hq, c, hc, hb1, he⟩

/-- Every sprite cell lands inside the 64×32 framebuffer. -/
theorem cellIdx_lt (x y row col : Nat) : cellIdx x y row col < 2048 := by
  unfold cellIdx
  have h1 : (y + row) % 32 < 32 := Nat.mod_lt _ (by norm_num)
  have h2 : (x + col) % 64 < 64 := Nat.mod_lt _ (by norm_num)
  omega

/-- Within one row, distinct columns (below 8 < 64) give distinct cells. -/
theorem cellIdx_inj_col (x y row : Nat) {c1 c2 : Nat} (hc1 : c1 < 8) (hc2 : c2 < 8)
    (h : cellIdx x y row c1 = cellIdx x y row c2) : c1 = c2 := by
  unfold cellIdx at h
  omega

/-- Distinct rows (below 16 < 32) give disjoint cells. -/
theorem cellIdx_ne_row (x y : Nat) {r1 r2 c1 c2 : Nat} (hr1 : r1 < 16) (hr2 : r2 < 16)
    (hne : r1 ≠ r2) (_hc1 : c1 < 8) (_hc2 : c2 < 8) :
    cellIdx x y r1 c1 ≠ cellIdx x y r2 c2 := by
  unfold cellIdx
  intro h
  omega

theorem colCells_nodup (x y row sprite : Nat) : ∀ (cols : List Nat), cols.Nodup →
    (∀ c ∈ cols, c < 8) → (colCells x y row sprite cols).Nodup
  | [], _, _ => List.nodup_nil
  | col :: cols, hnd, hlt => by
      by_cases h : spriteBit sprite col = 1
      · simp only [colCells, if_pos h]
        rw [List.nodup_cons]
        refine ⟨?_, colCells_nodup x y row sprite cols (List.nodup_cons.mp hnd).2
          (fun c hc => hlt c (List.mem_cons_of_mem _ hc))⟩
        intro hmem
        obtain ⟨c, hc, hb1, he⟩ := (mem_colCells x y row sprite cols _).mp hmem
        have hcol : col = c := cellIdx_inj_col x y row
          (hlt col (List.mem_cons_self col cols))
          (hlt c (List.mem_cons_of_mem _ hc)) he
        exact (List.nodup_cons.mp hnd).1 (hcol ▸ hc)
      · simp only [colCells, if_neg h]
        exact colCells_nodup x y row sprite cols (List.nodup_cons.mp hnd).2
          (fun c hc => hlt c (List.mem_cons_of_mem _ hc))

theorem rowCells_nodup (mem : List Nat) (i x y : Nat) : ∀ (rows : List Nat), rows.Nodup →
    (∀ q ∈ rows, q < 16) → (rowCells mem i x y rows).Nodup
  | [], _, _ => List.nodup_nil
  | row :: rows, hnd, hlt => by
      simp only [rowCells]
      apply List.Nodup.append
      · exact colCells_nodup x y row _ (List.range 8) (List.nodup_range 8)
          (fun c hc => List.mem_range.mp hc)
      · exact rowCells_nodup mem i x y rows (List.nodup_cons.mp hnd).2
          (fun q hq => hlt q (List.mem_cons_of_mem _ hq))
      · intro p hp1 hp2
        obtain ⟨c, hc, hb1, he⟩ := (mem_colCells x y row _ (List.range 8) p).mp hp1
        obtain ⟨q, hq, c2, hc2, hb2, he2⟩ := (mem_rowCells mem i x y rows p).mp hp2
        have hqrow : row ≠ q := by
          intro e
          exact (List.nodup_cons.mp hnd).1 (e ▸ hq)
        exact cellIdx_ne_row x y (hlt row (List.mem_cons_self row rows))
          (hlt q (List.mem_cons_of_mem _ hq)) hqrow (List.mem_range.mp hc) hc2
          (he.symm.trans he2)

/-! ### One draw cycle, in analysis form -/

/-- Executing one `DXYN` cycle (both fetch bytes given, all sprite rows
readable) XOR-toggles the active cells into the display and stores the
collision flag of that pass into `V[15]`. -/
theorem emulate_draw (r : Nat) (s : Chip8) (X Y N : Nat)
    (hX : X < 16) (hY : Y < 16) (hN : N < 16)
    (hmem : s.memory.length = 4096) (hI : s.I + N ≤ 4096)
    (hf1 : s.memory[s.PC]? = some (0xD0 + X))
    (hf2 : s.memory[s.PC + 1]? = some (16 * Y + N)) :
    emulate_cycle r s = .ok { s with
      display := toggles
        (rowCells s.memory s.I (s.V.getD X 0) (s.V.getD Y 0) (List.range N)) s.display
      V := s.V.set 15 (collide
        (rowCells s.memory s.I (s.V.getD X 0) (s.V.getD Y 0) (List.range N)) s.display 0)
      draw_flag := true
      PC := s.PC + 2 } := by
  rw [emulate_cycle_eq r s _ _ hf1 hf2,
      execOp_draw r s _ X Y N (by omega) (by omega) (by omega) (by omega),
      drawRows_eq s.memory s.I _ _ (List.range N) s.display 0
        (fun q hq => by have := List.mem_range.mp hq; omega)]

/-- Double application of the same `DXYN` (the draw opcode at `PC` and
`PC + 2`, all sprite rows readable, `X, Y ≠ 0xF` so the flag does not alias
the coordinates): the framebuffer returns to its pre-draw state, and the
second pass collides exactly on pixels that are 1 after the first pass. -/
theorem double_draw_spec (r : Nat) (s : Chip8) (X Y N : Nat)
    (hX : X < 16) (hY : Y < 16) (hN : N < 16) (hX15 : X ≠ 15) (hY15 : Y ≠ 15)
    (hmem : s.memory.length = 4096) (hdisp : s.display.length = 2048)
    (hVlen : s.V.length = 16) (hI : s.I + N ≤ 4096)
    (hf1 : s.memory[s.PC]? = some (0xD0 + X))
    (hf2 : s.memory[s.PC + 1]? = some (16 * Y + N))
    (hf3 : s.memory[s.PC + 2]? = some (0xD0 + X))
    (hf4 : s.memory[s.PC + 3]? = some (16 * Y + N)) :
    ∃ s1 s2, emulate_cycle r s = .ok s1 ∧ emulate_cycle r s1 = .ok s2 ∧
      s2.display = s.display ∧
      (s2.V.getD 15 0 = 1 ↔ ∃ row, row < N ∧ ∃ col, col < 8 ∧
        spriteBit (s.memory.getD (s.I + row) 0) col = 1 ∧
        s1.display.getD (cellIdx (s.V.getD X 0) (s.V.getD Y 0) row col) 0 = 1) ∧
      (s2.V.getD 15 0 = 0 ∨ s2.V.getD 15 0 = 1) := by
  have hnd : (rowCells s.memory s.I (s.V.getD X 0) (s.V.getD Y 0) (List.range N)).Nodup :=
    rowCells_nodup s.memory s.I _ _ (List.range N) (List.nodup_range N)
      (fun q hq => by have := List.mem_range.mp hq; omega)
  have hbnd : ∀ j ∈ rowCells s.memory s.I (s.V.getD X 0) (s.V.getD Y 0) (List.range N),
      j < s.display.length := by
    intro j hj
    obtain ⟨q, hq, c, hc, hb1, he⟩ :=
      (mem_rowCells s.memory s.I _ _ (List.range N) j).mp hj
    rw [he, hdisp]
    exact cellIdx_lt _ _ _ _
  have h1 := emulate_draw r s X Y N hX hY hN hmem hI hf1 hf2
  have hVX : (s.V.set 15 (collide
      (rowCells s.memory s.I (s.V.getD X 0) (s.V.getD Y 0) (List.range N))
      s.display 0)).getD X 0 = s.V.getD X 0 :=
    getD_set_ne _ _ _ _ (Ne.symm hX15)
  have hVY : (s.V.set 15 (collide
      (rowCells s.memory s.I (s.V.getD X 0) (s.V.getD Y 0) (List.range N))
      s.display 0)).getD Y 0 = s.V.getD Y 0 :=
    getD_set_ne _ _ _ _ (Ne.symm hY15)
  have hf4' : s.memory[s.PC + 2 + 1]? = some (16 * Y + N) := by
    rw [show s.PC + 2 + 1 = s.PC + 3 from by omega]
    exact hf4
  have h2 := emulate_draw r
    { s with
      display := toggles
        (rowCells s.memory s.I (s.V.getD X 0) (s.V.getD Y 0) (List.range N)) s.display
      V := s.V.set 15 (collide
        (rowCells s.memory s.I (s.V.getD X 0) (s.V.getD Y 0) (List.range N)) s.display 0)
      draw_flag := true
      PC := s.PC + 2 }
    X Y N hX hY hN hmem hI hf3 hf4'
  refine ⟨_, _, h1, h2, ?_, ?_, ?_⟩
  · show toggles
        (rowCells s.memory s.I
          ((s.V.set 15 (collide
            (rowCells s.memory s.I (s.V.getD X 0) (s.V.getD Y 0) (List.range N))
            s.display 0)).getD X 0)
          ((s.V.set 15 (collide
            (rowCells s.memory s.I (s.V.getD X 0) (s.V.getD Y 0) (List.range N))
            s.display 0)).getD Y 0)
          (List.range N))
        (toggles (rowCells s.memory s.I (s.V.getD X 0) (s.V.getD Y 0) (List.range N))
          s.display) = s.display
    rw [hVX, hVY]
    exact toggles_toggles _ _ hnd hbnd
  · show (((s.V.set 15 (collide
        (rowCells s.memory s.I (s.V.getD X 0) (s.V.getD Y 0) (List.range N))
        s.display 0)).set 15 (collide
          (rowCells s.memory s.I
            ((s.V.set 15 (collide
              (rowCells s.memory s.I (s.V.getD X 0) (s.V.getD Y 0) (List.range N))
              s.display 0)).getD X 0)
            ((s.V.set 15 (collide
              (rowCells s.memory s.I (s.V.getD X 0) (s.V.getD Y 0) (List.range N))
              s.display 0)).getD Y 0)
            (List.range N))
          (toggles (rowCells s.memory s.I (s.V.getD X 0) (s.V.getD Y 0) (List.range N))
            s.display) 0)).getD 15 0 = 1 ↔ _)
    rw [hVX, hVY,
        getD_set_self _ _ _ (by rw [List.length_set]; omega),
        collide_eq _ _ _ hnd]
    by_cases hex : ∃ j ∈ rowCells s.memory s.I (s.V.getD X 0) (s.V.getD Y 0) (List.range N),
        (toggles (rowCells s.memory s.I (s.V.getD X 0) (s.V.getD Y 0) (List.range N))
          s.display).getD j 0 = 1
    · rw [if_pos hex]
      constructor
      · intro _
        obtain ⟨j, hj, hj1⟩ := hex
        obtain ⟨q, hq, c, hc, hb1, he⟩ :=
          (mem_rowCells s.memory s.I _ _ (List.range N) j).mp hj
        refine ⟨q, List.mem_range.mp hq, c, hc, hb1, ?_⟩
        show (toggles (rowCells s.memory s.I (s.V.getD X 0) (s.V.getD Y 0) (List.range N))
            s.display).getD (cellIdx (s.V.getD X 0) (s.V.getD Y 0) q c) 0 = 1
        rw [← he]
        exact hj1
      · intro _
        rfl
    · rw [if_neg hex]
      constructor
      · intro h01
        exact absurd h01 (by norm_num)
      · intro hR
        obtain ⟨q, hq, c, hc, hb1, hd1⟩ := hR
        exact absurd (⟨cellIdx (s.V.getD X 0) (s.V.getD Y 0) q c,
          (mem_rowCells s.memory s.I _ _ (List.range N) _).mpr
            ⟨q, List.mem_range.mpr hq, c, hc, hb1, rfl⟩, hd1⟩ :
          ∃ j ∈ rowCells s.memory s.I (s.V.getD X 0) (s.V.getD Y 0) (List.range N),
            (toggles (rowCells s.memory s.I (s.V.getD X 0) (s.V.getD Y 0) (List.range N))
              s.display).getD j 0 = 1) hex
  · show ((s.V.set 15 (collide
        (rowCells s.memory s.I (s.V.getD X 0) (s.V.getD Y 0) (List.range N))
        s.display 0)).set 15 (collide
          (rowCells s.memory s.I
            ((s.V.set 15 (collide
              (rowCells s.memory s.I (s.V.getD X 0) (s.V.getD Y 0) (List.range N))
              s.display 0)).getD X 0)
            ((s.V.set 15 (collide
              (rowCells s.memory s.I (s.V.getD X 0) (s.V.getD Y 0) (List.range N))
              s.display 0)).getD Y 0)
            (List.range N))
          (toggles (rowCells s.memory s.I (s.V.getD X 0) (s.V.getD Y 0) (List.range N))
            s.display) 0)).getD 15 0 = 0 ∨ _
    rw [hVX, hVY,
        getD_set_self _ _ _ (by rw [List.length_set]; omega),
        collide_eq _ _ _ hnd]
    by_cases hex : ∃ j ∈ rowCells s.memory s.I (s.V.getD X 0) (s.V.getD Y 0) (List.range N),
        (toggles (rowCells s.memory s.I (s.V.getD X 0) (s.V.getD Y 0) (List.range N))
          s.display).getD j 0 = 1
    · rw [if_pos hex]
      right
      rfl
    · rw [if_neg hex]
      left
      rfl

theorem drawMem_length : drawMem.length = 4096 := by
  unfold drawMem
  rw [List.length_set, List.length_set, List.length_set, List.length_set, List.length_set,
      List.length_replicate]

theorem drawMem_b0 : drawMem[0x200]? = some 0xD0 := by
  unfold drawMem
  rw [List.getElem?_set_ne (by norm_num : (0x300 : Nat) ≠ 0x200),
      List.getElem?_set_ne (by norm_num : (0x203 : Nat) ≠ 0x200),
      List.getElem?_set_ne (by norm_num : (0x202 : Nat) ≠ 0x200),
      List.getElem?_set_ne (by norm_num : (0x201 : Nat) ≠ 0x200),
      List.getElem?_set_self (by rw [List.length_replicate]; norm_num)]

theorem drawMem_b1 : drawMem[0x201]? = some 0x11 := by
  unfold drawMem
  rw [List.getElem?_set_ne (by norm_num : (0x300 : Nat) ≠ 0x201),
      List.getElem?_set_ne (by norm_num : (0x203 : Nat) ≠ 0x201),
      List.getElem?_set_ne (by norm_num : (0x202 : Nat) ≠ 0x201),
      List.getElem?_set_self (by rw [List.length_set, List.length_replicate]; norm_num)]

theorem drawMem_b2 : drawMem[0x202]? = some 0xD0 := by
  unfold drawMem
  rw [List.getElem?_set_ne (by norm_num : (0x300 : Nat) ≠ 0x202),
      List.getElem?_set_ne (by norm_num : (0x203 : Nat) ≠ 0x202),
      List.getElem?_set_self
        (by rw [List.length_set, List.length_set, List.length_replicate]; norm_num)]

theorem drawMem_b3 : drawMem[0x203]? = some 0x11 := by
  unfold drawMem
  rw [List.getElem?_set_ne (by norm_num : (0x300 : Nat) ≠ 0x203),
      List.getElem?_set_self
        (by rw [List.length_set, List.length_set, List.length_set, List.length_replicate]
            norm_num)]

theorem drawMem_sprite : drawMem.getD 0x300 0 = 0x80 := by
  unfold drawMem
  exact getD_set_self _ _ _
    (by rw [List.length_set, List.length_set, List.length_set, List.length_set,
            List.length_replicate]
        norm_num)

/-- C7 (amended): executing the same `DXYN` twice in a row (the same draw
opcode at `PC` and `PC + 2`, all sprite rows readable, and `X, Y ≠ 0xF` so
the collision flag does not alias the coordinate registers) returns the
framebuffer exactly to its pre-draw state (XOR self-inverse); the second
draw sets `V[15]` to 1 iff some set sprite bit lands on a pixel that is 1
after the first draw (equivalently, a pixel the first draw turned on) — not
merely whenever the sprite has any set bit. -/
theorem c7_double_draw (r : Nat) (s : Chip8) (X Y N : Nat)
    (hX : X < 16) (hY : Y < 16) (hN : N < 16) (hX15 : X ≠ 15) (hY15 : Y ≠ 15)
    (hmem : s.memory.length = 4096) (hdisp : s.display.length = 2048)
    (hVlen : s.V.length = 16) (hI : s.I + N ≤ 4096)
    (hf1 : s.memory[s.PC]? = some (0xD0 + X))
    (hf2 : s.memory[s.PC + 1]? = some (16 * Y + N))
    (hf3 : s.memory[s.PC + 2]? = some (0xD0 + X))
    (hf4 : s.memory[s.PC + 3]? = some (16 * Y + N)) :
    ∃ s1 s2, emulate_cycle r s = .ok s1 ∧ emulate_cycle r s1 = .ok s2 ∧
      s2.display = s.display ∧
      (s2.V.getD 15 0 = 1 ↔ ∃ row, row < N ∧ ∃ col, col < 8 ∧
        spriteBit (s.memory.getD (s.I + row) 0) col = 1 ∧
        s1.display.getD (cellIdx (s.V.getD X 0) (s.V.getD Y 0) row col) 0 = 1) ∧
      (s2.V.getD 15 0 = 0 ∨ s2.V.getD 15 0 = 1) :=
  double_draw_spec r s X Y N hX hY hN hX15 hY15 hmem hdisp hVlen hI hf1 hf2 hf3 hf4

/-- C7 witness: drawing the one-pixel sprite twice at `(0, 0)` on an
all-dark display leaves the display all dark again. -/
theorem c7_double_draw_witness :
    ∃ s1 s2, emulate_cycle 0 drawDarkState = .ok s1 ∧ emulate_cycle 0 s1 = .ok s2 ∧
      s2.display = drawDarkState.display := by
  have hmem : drawDarkState.memory.length = 4096 := by
    rw [show drawDarkState.memory = drawMem from rfl]
    exact drawMem_length
  have hdisp : drawDarkState.display.length = 2048 := by
    rw [show drawDarkState.display = List.replicate 2048 0 from rfl, List.length_replicate]
  have hf1 : drawDarkState.memory[drawDarkState.PC]? = some (0xD0 + 0) := by
    rw [show drawDarkState.memory = drawMem from rfl, show drawDarkState.PC = 0x200 from rfl]
    simpa using drawMem_b0
  have hf2 : drawDarkState.memory[drawDarkState.PC + 1]? = some (16 * 1 + 1) := by
    rw [show drawDarkState.memory = drawMem from rfl,
        show drawDarkState.PC + 1 = 0x201 from rfl]
    simpa using drawMem_b1
  have hf3 : drawDarkState.memory[drawDarkState.PC + 2]? = some (0xD0 + 0) := by
    rw [show drawDarkState.memory = drawMem from rfl,
        show drawDarkState.PC + 2 = 0x202 from rfl]
    simpa using drawMem_b2
  have hf4 : drawDarkState.memory[drawDarkState.PC + 3]? = some (16 * 1 + 1) := by
    rw [show drawDarkState.memory = drawMem from rfl,
        show drawDarkState.PC + 3 = 0x203 from rfl]
    simpa using drawMem_b3
  obtain ⟨s1, s2, h1, h2, hd, -, -⟩ :=
    c7_double_draw 0 drawDarkState 0 1 1 (by norm_num) (by norm_num) (by norm_num)
      (by norm_num) (by norm_num) hmem hdisp (by decide) (by decide) hf1 hf2 hf3 hf4
  exact ⟨s1, s2, h1, h2, hd⟩

/-- C7 (as stated, refuted): the one-pixel sprite `0x80` has a set bit, yet
drawing it twice at `(0, 0)` onto a display whose pixel `(0, 0)` is already
lit gives collision flag 0 on the second draw — the first draw turned that
pixel off, so the second pass found nothing to collide with.  The claim
says the second draw sets `V[15] = 1` whenever the sprite has any set
bit. -/
theorem c7_collision_counterexample :
    ∃ s1 s2, emulate_cycle 0 drawLitState = .ok s1 ∧ emulate_cycle 0 s1 = .ok s2 ∧
      spriteBit (drawLitState.memory.getD (drawLitState.I + 0) 0) 0 = 1 ∧
      s2.V.getD 15 0 = 0 ∧ (0 : Nat) ≠ 1 := by
  have hmem : drawLitState.memory.length = 4096 := by
    rw [show drawLitState.memory = drawMem from rfl]
    exact drawMem_length
  have hdisp : drawLitState.display.length = 2048 := by
    rw [show drawLitState.display = (List.replicate 2048 0).set 0 1 from rfl,
        List.length_set, List.length_replicate]
  have hf1 : drawLitState.memory[drawLitState.PC]? = some (0xD0 + 0) := by
    rw [show drawLitState.memory = drawMem from rfl, show drawLitState.PC = 0x200 from rfl]
    simpa using drawMem_b0
  have hf2 : drawLitState.memory[drawLitState.PC + 1]? = some (16 * 1 + 1) := by
    rw [show drawLitState.memory = drawMem from rfl,
        show drawLitState.PC + 1 = 0x201 from rfl]
    simpa using drawMem_b1
  have hf3 : drawLitState.memory[drawLitState.PC + 2]? = some (0xD0 + 0) := by
    rw [show drawLitState.memory = drawMem from rfl,
        show drawLitState.PC + 2 = 0x202 from rfl]
    simpa using drawMem_b2
  have hf4 : drawLitState.memory[drawLitState.PC + 3]? = some (16 * 1 + 1) := by
    rw [show drawLitState.memory = drawMem from rfl,
        show drawLitState.PC + 3 = 0x203 from rfl]
    simpa using drawMem_b3
  obtain ⟨s1, s2, h1, h2, -, hiff, hor⟩ :=
    double_draw_spec 0 drawLitState 0 1 1 (by norm_num) (by norm_num) (by norm_num)
      (by norm_num) (by norm_num) hmem hdisp (by decide) (by decide) hf1 hf2 hf3 hf4
  refine ⟨s1, s2, h1, h2, ?_, ?_, by norm_num⟩
  · rw [show drawLitState.memory = drawMem from rfl, show drawLitState.I + 0 = 0x300 from rfl,
        drawMem_sprite]
    decide
  · rcases hor with h0 | h1v
    · exact h0
    · exfalso
      obtain ⟨row, hrow, col, hcol, hbit, hpix⟩ := hiff.mp h1v
      have hrow0 : row = 0 := by omega
      subst hrow0
      rw [show drawLitState.memory = drawMem from rfl,
          show drawLitState.I + 0 = 0x300 from rfl, drawMem_sprite] at hbit
      have hcol0 : col = 0 := by
        interval_cases col
        all_goals first
          | rfl
          | exact absurd hbit (by decide)
      subst hcol0
      have h1' := emulate_draw 0 drawLitState 0 1 1 (by norm_num) (by norm_num)
        (by norm_num) hmem (by decide) hf1 hf2
      have hs1 := Except.ok.inj (h1.symm.trans h1')
      rw [hs1] at hpix
      rw [show drawLitState.V.getD 0 0 = 0 from by decide,
          show drawLitState.V.getD 1 0 = 0 from by decide] at hpix
      have hcells : rowCells drawLitState.memory drawLitState.I 0 0 (List.range 1) = [0] := by
        rw [show drawLitState.memory = drawMem from rfl,
            show drawLitState.I = 0x300 from rfl,
            show List.range 1 = [0] from by decide]
        simp only [rowCells]
        rw [show (0x300 : Nat) + 0 = 0x300 from rfl, drawMem_sprite]
        decide
      rw [hcells, show cellIdx 0 0 0 0 = 0 from by decide,
          show drawLitState.display = (List.replicate 2048 0).set 0 1 from rfl] at hpix
      simp only [toggles] at hpix
      rw [getD_set_self _ _ _
            (by rw [List.length_set, List.length_replicate]; norm_num)] at hpix
      rw [getD_set_self _ _ _ (by rw [List.length_replicate]; norm_num)] at hpix
      exact absurd hpix (by decide)

/-- C10 witness: `F155` with `I = 0x300`, `V[0] = 7`, `V[1] = 9` stores 7 at
`memory[0x300]` and 9 at `memory[0x301]`, and `I` stays `0x300`. -/
theorem c10_dump_load_keep_index_witness :
    ∃ s1, emulate_cycle 0 dumpWitState = .ok s1 ∧ s1.I = 0x300 ∧
      s1.memory.getD 0x300 0 = 7 ∧ s1.memory.getD 0x301 0 = 9 := by
  have h1 : dumpWitState.memory[dumpWitState.PC]? = some (0xF0 + 1) := by
    rw [show dumpWitState.memory = romMem 0xF1 0x55 from rfl,
        show dumpWitState.PC = 0x200 from rfl]
    simpa using romMem_hi 0xF1 0x55
  have h2 : dumpWitState.memory[dumpWitState.PC + 1]? = some 0x55 := by
    rw [show dumpWitState.memory = romMem 0xF1 0x55 from rfl,
        show dumpWitState.PC + 1 = 0x201 from rfl]
    exact romMem_lo _ _
  obtain ⟨s1, hok, hI, hV, hin, hout, -, -, -⟩ :=
    (c10_dump_load_keep_index 0 dumpWitState 1 (by norm_num)
      (by rw [show dumpWitState.memory = romMem 0xF1 0x55 from rfl]; exact romMem_length _ _)
      (by decide) (by decide)).1 h1 h2
  refine ⟨s1, hok, hI, ?_, ?_⟩
  · have h0 := hin 0 (by norm_num)
    rw [show dumpWitState.I + 0 = 0x300 from rfl] at h0
    rw [h0]
    decide
  · have h0 := hin 1 (by norm_num)
    rw [show dumpWitState.I + 1 = 0x301 from rfl] at h0
    rw [h0]
    decide

end Chip8Emu
